import Mathlib

/-!
Verification of the file-synchronization core of the codewind-installer
repository (`pkg/project/sync.go`).

The Go source is shallowly embedded below.  Paths and rule patterns are
modelled as `List Char` (Go byte strings restricted to the rune level, which
is what `path/filepath` works with for the constructs used here); the host
platform is modelled as Unix, so the path separator is `'/'`,
`filepath.ToSlash` is the identity and `filepath.IsAbs` tests for a leading
separator.  Mutable walker state becomes explicit state passing, and every
external collaborator (HTTP transport, `os.Stat`/`ioutil.ReadFile` on upload,
the two JSON metadata files already parsed) is an explicit oracle field of an
environment record, matching the external-interface boundary of the design.
-/

namespace Codewind

/-- Convert a string literal to the `List Char` representation used for paths. -/
def str (s : String) : List Char := s.data

/-! ## Go `path/filepath` primitives: `Clean`, `Match`, `Join`

Transliterated from the Go standard library (`path/filepath/path.go` and
`path/filepath/match.go`, the pre-1.16 version current when the repository
was written), specialised to a Unix host. -/

/-- Inner loop of the `..`-backtracking step of Go's `filepath.Clean`:
starting from write position `w`, move left while the position is above
`dotdot` and the byte there is not a separator; returns the final write
position. -/
def backtrackW (out : List Char) (dotdot : Nat) : Nat → Nat
  | 0 => 0
  | w + 1 =>
    if dotdot < w + 1 ∧ out.getD (w + 1) ' ' ≠ '/' then backtrackW out dotdot w
    else w + 1

/-- The `..` element handling of `filepath.Clean`: drop the last path element
from the output buffer (`out.w--` followed by the backtrack loop). -/
def cleanBacktrack (out : List Char) (dotdot : Nat) : List Char :=
  out.take (backtrackW out dotdot (out.length - 1))

/-- The `..`-element step of `filepath.Clean`: backtrack the output buffer
when possible, otherwise (when not rooted) append a literal `..` element and
raise the backtracking limit.  Returns the new buffer and new limit. -/
def dotdotApply (out : List Char) (dotdot : Nat) (rooted : Bool) : List Char × Nat :=
  if out.length > dotdot then (cleanBacktrack out dotdot, dotdot)
  else if ¬rooted then
    let out2 := (if out.length > 0 then out ++ ['/'] else out) ++ ['.', '.']
    (out2, out2.length)
  else (out, dotdot)

mutual
/-- Main loop of Go's `filepath.Clean` over the remaining input; `out` is the
output buffer, `dotdot` the limit for `..` backtracking, `rooted` whether the
original path began with a separator.  A separator following a consumed `.`
or `..` element is consumed in the same step (the Go loop would skip it as an
empty element on its next iteration); the element-copying inner loop of the
Go code is the mutual function `cleanCopy`, which receives the element's tail
after its first character has been copied. -/
def cleanCore : List Char → List Char → Nat → Bool → List Char
  | [], out, _, _ => out
  | '/' :: rest, out, dotdot, rooted => cleanCore rest out dotdot rooted
  | ['.'], out, _, _ => out
  | '.' :: '/' :: rest, out, dotdot, rooted => cleanCore rest out dotdot rooted
  | ['.', '.'], out, dotdot, rooted => (dotdotApply out dotdot rooted).1
  | '.' :: '.' :: '/' :: rest, out, dotdot, rooted =>
    let p := dotdotApply out dotdot rooted
    cleanCore rest p.1 p.2 rooted
  | c :: rest, out, dotdot, rooted =>
    let out1 :=
      if (rooted ∧ out.length ≠ 1) ∨ (¬rooted ∧ out.length ≠ 0) then out ++ ['/']
      else out
    cleanCopy rest (out1 ++ [c]) dotdot rooted

/-- Copy the remainder of one real path element into the output buffer (the
`for ; r < n && !os.IsPathSeparator(path[r]); r++` loop of `filepath.Clean`);
a separator ends the element and control returns to the main loop. -/
def cleanCopy : List Char → List Char → Nat → Bool → List Char
  | [], out, _, _ => out
  | '/' :: rest, out, dotdot, rooted => cleanCore rest out dotdot rooted
  | c :: rest, out, dotdot, rooted => cleanCopy rest (out ++ [c]) dotdot rooted
end

/-- Go's `filepath.Clean` on a Unix host. -/
def clean (path : List Char) : List Char :=
  if path = [] then ['.']
  else
    let out :=
      if path.head? = some '/' then cleanCore (path.drop 1) ['/'] 1 true
      else cleanCore path [] 0 false
    if out = [] then ['.'] else out

/-- Go's `filepath.IsAbs` on a Unix host. -/
def isAbs (path : List Char) : Bool := path.head? = some '/'

/-- Go's `filepath.Join` for two elements on a Unix host: empty leading
elements are skipped and the result is cleaned. -/
def joinPath (a b : List Char) : List Char :=
  if a = [] then (if b = [] then [] else clean b)
  else clean (a ++ '/' :: b)

/-- Go's `filepath.ToSlash` on a Unix host (the separator already is `'/'`). -/
def toSlash (path : List Char) : List Char := path

/-! ### `filepath.Match` -/

/-- Result of Go's `matchChunk`: the remaining name on success, a plain
non-match (`ok = false`, `err = nil`), or `ErrBadPattern`. -/
inductive ChunkRes where
  | ok (rest : List Char)
  | nomatch
  | bad
deriving DecidableEq, Repr

/-- Strip the leading `*`s from a pattern, reporting whether any was present
(the head of Go's `scanChunk`). -/
def stripStars : List Char → Bool × List Char
  | '*' :: rest => (true, (stripStars rest).2)
  | l => (false, l)

/-- The chunk-scanning loop of Go's `scanChunk`: split off the pattern chunk
up to the next top-level `*`, tracking whether the scanner is inside a
character class and skipping escaped characters. -/
def scanChunkLoop : List Char → Bool → List Char × List Char
  | [], _ => ([], [])
  | '\\' :: rest, inrange =>
    match rest with
    | [] => (['\\'], [])
    | c2 :: rest2 =>
      let p := scanChunkLoop rest2 inrange
      ('\\' :: c2 :: p.1, p.2)
  | '[' :: rest, _ =>
    let p := scanChunkLoop rest true
    ('[' :: p.1, p.2)
  | ']' :: rest, _ =>
    let p := scanChunkLoop rest false
    (']' :: p.1, p.2)
  | '*' :: rest, inrange =>
    if inrange then
      let p := scanChunkLoop rest true
      ('*' :: p.1, p.2)
    else ([], '*' :: rest)
  | c :: rest, inrange =>
    let p := scanChunkLoop rest inrange
    (c :: p.1, p.2)

/-- Go's `getEsc`: read one (possibly escaped) character of a character
class; `none` is `ErrBadPattern`. -/
def getEsc : List Char → Option (Char × List Char)
  | [] => none
  | c :: rest =>
    if c = '-' ∨ c = ']' then none
    else if c = '\\' then
      match rest with
      | [] => none
      | r :: rest2 => if rest2 = [] then none else some (r, rest2)
    else if rest = [] then none else some (c, rest)

/-- Result of the range-parsing loop inside `matchChunk`'s `[` case. -/
inductive RangeRes where
  | done (matched : Bool) (rest : List Char)
  | bad
deriving DecidableEq, Repr

/-- The range-parsing loop of `matchChunk`'s character-class case, with an
explicit fuel argument for structural recursion; every iteration consumes at
least one pattern character, so fuel `chunk.length + 1` never runs out. -/
def matchRanges : Nat → Char → List Char → Bool → Nat → RangeRes
  | 0, _, _, _, _ => .bad
  | fuel + 1, rc, chunk, matched, nrange =>
    if chunk.head? = some ']' ∧ nrange > 0 then .done matched chunk.tail
    else
      match getEsc chunk with
      | none => .bad
      | some (lo, chunk1) =>
        match chunk1 with
        | [] => .bad
        | c1 :: rest1 =>
          if c1 = '-' then
            match getEsc rest1 with
            | none => .bad
            | some (hi, chunk2) =>
              matchRanges fuel rc chunk2
                (matched || (decide (lo.val ≤ rc.val) && decide (rc.val ≤ hi.val)))
                (nrange + 1)
          else
            matchRanges fuel rc chunk1
              (matched || (decide (lo.val ≤ rc.val) && decide (rc.val ≤ lo.val)))
              (nrange + 1)

/-- Go's `matchChunk` (pre-1.16 form): match a star-free pattern chunk
against the head of the name. -/
def matchChunk : List Char → List Char → ChunkRes
  | [], s => .ok s
  | _ :: _, [] => .nomatch
  | '[' :: chunk, rc :: srest =>
    (match chunk with
     | [] => .bad
     | _ =>
       let negated := chunk.head? = some '^'
       let chunk1 := if negated then chunk.tail else chunk
       match matchRanges (chunk1.length + 1) rc chunk1 false 0 with
       | .bad => .bad
       | .done m rest =>
         if m = negated then .nomatch else matchChunk rest srest)
  | '?' :: chunk, rc :: srest =>
    if rc = '/' then .nomatch else matchChunk chunk srest
  | '\\' :: chunk, rc :: srest =>
    (match chunk with
     | [] => .bad
     | c2 :: chunk2 =>
       if c2 ≠ rc then .nomatch else matchChunk chunk2 srest)
  | pc :: chunk, rc :: srest =>
    if pc ≠ rc then .nomatch else matchChunk chunk srest

mutual
/-- The main loop of Go's `filepath.Match` (pre-1.16 form), with an explicit
fuel argument for structural recursion; each iteration strictly shortens the
pattern or the name, so the fuel chosen in `goMatch` never runs out.
`none` is `ErrBadPattern`. -/
def goMatchAux : Nat → List Char → List Char → Option Bool
  | 0, _, _ => none
  | fuel + 1, pattern, name =>
    if pattern = [] then some name.isEmpty
    else
      let sp := stripStars pattern
      let sc := scanChunkLoop sp.2 false
      if sp.1 ∧ sc.1 = [] then some (!(name.contains '/'))
      else
        match matchChunk sc.1 name with
        | .bad => none
        | .ok t =>
          if t = [] ∨ sc.2 ≠ [] then goMatchAux fuel sc.2 t
          else if sp.1 then starLoopAux fuel sc.1 sc.2 name
          else some false
        | .nomatch =>
          if sp.1 then starLoopAux fuel sc.1 sc.2 name else some false

/-- The star-retry loop of `filepath.Match`: try to match the chunk at every
later position of the name up to the next separator. -/
def starLoopAux : Nat → List Char → List Char → List Char → Option Bool
  | 0, _, _, _ => none
  | fuel + 1, chunk, rest, name =>
    match name with
    | [] => some false
    | c :: ntail =>
      if c = '/' then some false
      else
        match matchChunk chunk ntail with
        | .bad => none
        | .ok t =>
          if rest = [] ∧ t ≠ [] then starLoopAux fuel chunk rest ntail
          else goMatchAux fuel rest t
        | .nomatch => starLoopAux fuel chunk rest ntail
end

/-- Go's `filepath.Match` on a Unix host; `none` is `ErrBadPattern`.  The
fuel bound is a safe over-approximation of the recursion depth of the Go
loops (each level strictly shortens the pattern or the name). -/
def goMatch (pattern name : List Char) : Option Bool :=
  goMatchAux ((pattern.length + 2) * (name.length + 2)) pattern name

/-! ## Data model of `pkg/project/sync.go` -/

/-- The operation tags of `ProjectError` used by `sync.go` (their string
values live in a sibling file of the package; only their identity matters
here). -/
inductive ErrOp where
  | errOpConNotFound
  | errBadPath
  | errOpSync
  | errOpSyncRef
  | errOpRequest
  | errOpNotFound
deriving DecidableEq, Repr

/-- A `ProjectError`: operation tag plus human-readable description. -/
structure ProjectError where
  op : ErrOp
  desc : String
deriving DecidableEq, Repr

/-- The error text of the `textProjectPathDoesNotExist` constant (defined in
a sibling file of the package; its exact wording is irrelevant). -/
def textProjectPathDoesNotExist : String := "project path does not exist"

/-- `UploadedFile`: the per-file upload outcome `{filePath, status, statusCode}`. -/
structure UploadedFile where
  FilePath : List Char
  Status : String
  StatusCode : Int
deriving DecidableEq, Repr

/-- `SyncResponse`: the sync result returned to the caller. -/
structure SyncResponse where
  Status : String
  StatusCode : Int
  UploadedFiles : List UploadedFile
deriving DecidableEq, Repr

/-- `CompleteRequest`: the completion manifest sent to the upload-complete API. -/
structure CompleteRequest where
  FileList : List (List Char)
  DirectoryList : List (List Char)
  ModifiedList : List (List Char)
  TimeStamp : Nat
deriving DecidableEq, Repr

/-- `SyncInfo`: the accumulated result of the walk phases. -/
structure SyncInfo where
  fileList : List (List Char)
  directoryList : List (List Char)
  modifiedList : List (List Char)
  UploadedFileList : List UploadedFile
deriving DecidableEq, Repr

/-- `refPath`: one reference-path entry `{from, to}`. -/
structure RefPath where
  From : List Char
  To : List Char
deriving DecidableEq, Repr

/-- Result of `os.Stat` on a reference `from` path: directory flag and
modification time in milliseconds since the epoch. -/
structure RefStat where
  isDir : Bool
  mtimeMillis : Nat
deriving DecidableEq, Repr

/-- The physical project tree below the project path.  A directory whose
`readable` flag is false makes `filepath.Walk`'s directory read fail, which
hands a non-nil error to the walker function. -/
inductive FSNode where
  | file (name : List Char) (mtimeMillis : Nat)
  | dir (name : List Char) (readable : Bool) (children : List FSNode)
deriving Repr

/-- Base name of a tree node. -/
def FSNode.name : FSNode → List Char
  | .file n _ => n
  | .dir n _ _ => n

/-- Whether a tree node is a directory. -/
def FSNode.isDirNode : FSNode → Bool
  | .file _ _ => false
  | .dir _ _ _ => true

/-- Environment of oracles for one sync pass: the wall-clock time the pass
reads, the responses of every external transport call, the per-upload
filesystem results, and the two parsed metadata rule files.  Each field
models exactly one external-collaborator interaction of `sync.go`:
`retrieveIgnoredPathsList` / `retrieveRefPathsList` (whose JSON reading is
outside every claim) are modelled by their parsed results, and
`GetProjectFromID` / `GetProjectFileList` / `handleMissingProjectDir`'s
dispatch / `completeUpload`'s dispatch / the per-file upload dispatch are the
transport boundary, where `none` models a failed request. -/
structure Env where
  currentSyncTimeMillis : Nat
  pathExists : Bool
  getConnectionIDOk : Bool
  getConnectionOk : Bool
  pfeOriginOk : Bool
  projectLocationOnDisk : Option (List Char)
  missingLocalDirResp : Option Int
  beforeFileList : Option (List (List Char))
  completeResp : Option (String × Int)
  statOk : List Char → Bool
  readOk : List Char → Bool
  upload : List Char → Option (String × Int)
  refStat : List Char → Option RefStat
  ignoredPathsList : List (List Char)
  refPathsList : List RefPath
  fs : FSNode

/-! ## `sync.go` operations -/

/-- The per-rule normalisation performed by `ignoreFileOrDirectory` before
glob matching: `filepath.Clean`, then strip one leading separator (legacy
`.cw-settings` form). -/
def cleanRule (fileName0 : List Char) : List Char :=
  let fileName1 := clean fileName0
  if fileName1.head? = some '/' then fileName1.tail else fileName1

/-- `ignoreFileOrDirectory`: scan the rule list in order; each rule is
cleaned and a leading separator stripped (`cleanRule`), then glob-matched
against the whole relative path.  A match error returns false for the whole
call; a match returns true; otherwise the scan continues.  The `isDir`
parameter is unused by the Go function body and kept for fidelity. -/
def ignoreFileOrDirectory (name : List Char) (isDir : Bool) :
    List (List Char) → Bool
  | [] => false
  | fileName0 :: restRules =>
    match goMatch (cleanRule fileName0) name with
    | none => false
    | some true => true
    | some false => ignoreFileOrDirectory name isDir restRules

/-- `syncFile`: upload one file.  A stat failure, read failure or transport
failure yields the `Failed`/`0` outcome; a transport response is copied
verbatim.  The zlib/base64 payload construction of the Go code has no
observable effect on any outcome and is not modelled. -/
def syncFile (env : Env) (projectPath path : List Char) : UploadedFile :=
  let relativePath := toSlash (path.drop (projectPath.length + 1))
  let uploadResponse : UploadedFile := ⟨relativePath, "Failed", 0⟩
  if ¬env.statOk path then uploadResponse
  else if ¬env.readOk path then uploadResponse
  else
    match env.upload path with
    | none => uploadResponse
    | some (s, c) => ⟨relativePath, s, c⟩

/-- The mutable state captured by the walker closure of `syncFiles`. -/
structure SyncState where
  fileList : List (List Char)
  directoryList : List (List Char)
  modifiedList : List (List Char)
  uploadedFiles : List UploadedFile
  refPathsChanged : Bool
deriving DecidableEq, Repr

/-- The empty walker state at the start of a pass. -/
def SyncState.empty : SyncState := ⟨[], [], [], [], false⟩

/-- Control result of one walker invocation: continue, `filepath.SkipDir`,
or a propagated error (which `syncFiles` turns into a fatal result). -/
inductive WalkCtl where
  | next
  | skipDir
  | fail
deriving DecidableEq, Repr

/-- The per-entry fields of `walkerInfo` that the walker reads: the physical
path of the entry, its kind and timestamp, and the ignore list and cutoff in
effect for this walk. -/
structure WalkerInfo where
  Path : List Char
  isDir : Bool
  modTimeMillis : Nat
  IgnoredPaths : List (List Char)
  LastSync : Nat

/-- The walker closure of `syncFiles`: classify one filesystem entry,
append to the captured lists, upload a modified file, and set the
reference-resync flag when the rule file itself changed.  `errFlag` models a
non-nil error handed in by `filepath.Walk`. -/
def walker (env : Env) (projectPath : List Char) (st : SyncState)
    (path : List Char) (info : WalkerInfo) (errFlag : Bool) :
    SyncState × WalkCtl :=
  if errFlag then (st, .fail)
  else if path = projectPath then (st, .next)
  else
    let relativePath := toSlash (path.drop (projectPath.length + 1))
    if ¬info.isDir then
      if ignoreFileOrDirectory relativePath false info.IgnoredPaths then
        (st, .next)
      else
        let st1 := { st with fileList := st.fileList ++ [relativePath] }
        if info.modTimeMillis > info.LastSync then
          let uploadResponse := syncFile env projectPath info.Path
          let st2 := { st1 with
            uploadedFiles := st1.uploadedFiles ++ [uploadResponse],
            modifiedList := st1.modifiedList ++ [relativePath] }
          let st3 :=
            if relativePath = str ".cw-refpaths.json" then
              { st2 with refPathsChanged := true }
            else st2
          (st3, .next)
        else (st1, .next)
    else
      if ignoreFileOrDirectory relativePath true info.IgnoredPaths then
        (st, .skipDir)
      else
        ({ st with directoryList := st.directoryList ++ [relativePath] }, .next)

mutual
/-- Go's `filepath.walk` recursion over a tree node at physical path `path`.
An unreadable directory hands the read error to the walker function, whose
result is returned; `SkipDir` from a directory's own visit skips its
subtree.  Children are visited in list order (modelling the sorted output of
`readDirNames`). -/
def goWalk (env : Env) (projectPath : List Char)
    (ign : List (List Char)) (lastSync : Nat)
    (path : List Char) (node : FSNode) (st : SyncState) :
    SyncState × WalkCtl :=
  match node with
  | .file _ mtime =>
    walker env projectPath st path ⟨path, false, mtime, ign, lastSync⟩ false
  | .dir _ readable children =>
    if readable then
      match walker env projectPath st path ⟨path, true, 0, ign, lastSync⟩ false with
      | (st1, .next) => goWalkList env projectPath ign lastSync path children st1
      | (st1, c) => (st1, c)
    else
      walker env projectPath st path ⟨path, true, 0, ign, lastSync⟩ true

/-- The child loop of Go's `filepath.walk`: a `SkipDir` returned by a
directory child is swallowed, a `SkipDir` escaping from a file's visit
propagates, and any other error aborts the walk. -/
def goWalkList (env : Env) (projectPath : List Char)
    (ign : List (List Char)) (lastSync : Nat)
    (parentPath : List Char) (nodes : List FSNode) (st : SyncState) :
    SyncState × WalkCtl :=
  match nodes with
  | [] => (st, .next)
  | child :: rest =>
    let childPath := parentPath ++ '/' :: child.name
    match goWalk env projectPath ign lastSync childPath child st with
    | (st1, .next) => goWalkList env projectPath ign lastSync parentPath rest st1
    | (st1, .skipDir) =>
      if child.isDirNode then
        goWalkList env projectPath ign lastSync parentPath rest st1
      else (st1, .skipDir)
    | (st1, .fail) => (st1, .fail)
end

/-- Go's `filepath.Walk` rooted at the project path: run the recursion and
convert a top-level `SkipDir` into success. -/
def filepathWalk (env : Env) (projectPath : List Char)
    (ign : List (List Char)) (lastSync : Nat) : SyncState × WalkCtl :=
  let r := goWalk env projectPath ign lastSync projectPath env.fs SyncState.empty
  (r.1, if r.2 = .skipDir then .next else r.2)

/-- The combined ignore list used for the primary tree walk: the
`.cw-settings` ignore rules followed by every reference `to` path. -/
def cwCombinedIgnoredPathsList (settings : List (List Char))
    (refs : List RefPath) : List (List Char) :=
  settings ++ refs.map (·.To)

/-- Output of `syncFiles`, plus the ghost observation `refCutoffs`: the
`LastSync` value passed to the walker for each reference path that survived
its `os.Stat` check, in loop order. -/
structure SyncFilesOut where
  info : Option SyncInfo
  err : Option ProjectError
  refCutoffs : List Nat
deriving Repr

/-- Resolution of a reference `from` path: absolute paths are used as they
are, relative ones are joined onto the project path. -/
def resolveFrom (projectPath : List Char) (r : RefPath) : List Char :=
  if isAbs r.From then r.From else joinPath projectPath r.From

/-- The reference-path loop of `syncFiles`: resolve each `from`, skip
invalid references while accumulating a warning, force the cutoff to `0`
when the captured `refPathsChanged` flag is set, and hand the entry to the
walker (whose control result the Go code discards). -/
def refLoop (env : Env) (projectPath : List Char) (synctime : Nat) :
    List RefPath → SyncState → String → List Nat →
    SyncState × String × List Nat
  | [], st, errText, cutoffs => (st, errText, cutoffs)
  | r :: rest, st, errText, cutoffs =>
    let fromPath := resolveFrom projectPath r
    match env.refStat fromPath with
    | none =>
      refLoop env projectPath synctime rest st
        (errText ++ "invalid file reference " ++ String.mk fromPath ++ "\n")
        cutoffs
    | some info =>
      if info.isDir then
        refLoop env projectPath synctime rest st
          (errText ++ "invalid file reference " ++ String.mk fromPath ++ "\n")
          cutoffs
      else
        let lastSync := if st.refPathsChanged then 0 else synctime
        let w := walker env projectPath st (joinPath projectPath r.To)
          ⟨fromPath, false, info.mtimeMillis, env.ignoredPathsList, lastSync⟩
          false
        refLoop env projectPath synctime rest w.1 errText (cutoffs ++ [lastSync])

/-- The first walk phase of `syncFiles`: the walk of the physical project
tree, using the combined ignore list and the pass's cutoff. -/
def primaryWalk (env : Env) (projectPath : List Char) (synctime : Nat) :
    SyncState × WalkCtl :=
  filepathWalk env projectPath
    (cwCombinedIgnoredPathsList env.ignoredPathsList env.refPathsList) synctime

/-- `syncFiles`: walk the physical project tree with the combined ignore
list (a walk error is fatal and yields no `SyncInfo`), then walk every
reference path with the base ignore list, returning the accumulated lists
and a non-fatal aggregated warning when some reference was invalid. -/
def syncFiles (env : Env) (projectPath : List Char) (synctime : Nat) :
    SyncFilesOut :=
  let w := primaryWalk env projectPath synctime
  if w.2 = .fail then
    { info := none,
      err := some ⟨.errOpSync, "error walking the path"⟩,
      refCutoffs := [] }
  else
    let r := refLoop env projectPath synctime env.refPathsList w.1 "" []
    let st := r.1
    { info := some ⟨st.fileList, st.directoryList, st.modifiedList, st.uploadedFiles⟩,
      err := if r.2.1 ≠ "" then some ⟨.errOpSyncRef, r.2.1⟩ else none,
      refCutoffs := r.2.2 }

/-- `completeUpload`: send the completion manifest; a transport failure is
reported as a description with status code `0`, a response is copied
verbatim. -/
def completeUpload (env : Env) : String × Int :=
  match env.completeResp with
  | none => ("error making request", 0)
  | some (s, c) => (s, c)

/-- `handleMissingProjectDir`: notify the remote that the local project
directory is missing; a dispatch failure or a non-200 response is an error. -/
def handleMissingProjectDir (env : Env) : Option ProjectError :=
  match env.missingLocalDirResp with
  | none => some ⟨.errOpRequest, "error dispatching request"⟩
  | some code =>
    if code ≠ 200 then some ⟨.errOpNotFound, "PFE responded with an error status code"⟩
    else none

/-- `existsIn`: linear membership scan used by `findNewFiles`. -/
def existsIn (value : List Char) : List (List Char) → Bool
  | [] => false
  | item :: rest => if item = value then true else existsIn value rest

/-- `findNewFiles`: every computed file absent from the remote's prior list
is uploaded (the upload outcome is discarded by the Go code) and collected.
Returns the new files and, as a ghost observation, the physical paths passed
to `syncFile`. -/
def findNewFiles (beforefiles : List (List Char)) (projectPath : List Char) :
    List (List Char) → List (List Char) × List (List Char)
  | [] => ([], [])
  | filename :: rest =>
    let r := findNewFiles beforefiles projectPath rest
    if ¬existsIn filename beforefiles then
      (filename :: r.1, joinPath projectPath filename :: r.2)
    else r

/-- Observable outcome of one `SyncProject` call.  `ok` is a normal return
of a `SyncResponse` together with the (possibly non-nil) warning error from
`syncFiles`; `fatal` is an early error return; `nilPanic` is the nil-pointer
dereference `SyncProject` runs into when `syncFiles` failed fatally (it
returns a nil `SyncInfo` whose fields `SyncProject` reads unconditionally). -/
inductive SyncOutcome where
  | ok (resp : SyncResponse) (warn : Option ProjectError)
  | fatal (e : ProjectError)
  | nilPanic
deriving DecidableEq, Repr

/-- Ghost observations of one `SyncProject` call: which externally visible
steps ran.  `reconciledNewFiles` is `some added` exactly when `findNewFiles`
executed; `reconcileUploads` are the physical paths it passed to `syncFile`;
`completeRequests` are the completion manifests sent, in order. -/
structure Trace where
  notifiedMissingDir : Bool
  walked : Bool
  fetchedBeforeList : Bool
  reconciledNewFiles : Option (List (List Char))
  reconcileUploads : List (List Char)
  completeRequests : List CompleteRequest
  refWalkCutoffs : List Nat
deriving DecidableEq, Repr

/-- The all-false initial trace. -/
def Trace.empty : Trace := ⟨false, false, false, none, [], [], []⟩

/-- `SyncProject`: one full sync pass, returning its observable outcome and
the trace of externally visible steps.  Connection resolution failures
(`GetConnectionID`, `GetConnectionByID`, `PFEOriginFromConnection`) abort
first; a missing local path is distinguished from a stale recorded location;
otherwise the walk phases run, reconciliation runs when the remote's prior
file list could be fetched, and the completion manifest is sent. -/
def SyncProject (env : Env) (projectPath : List Char) (synctime : Nat) :
    SyncOutcome × Trace :=
  if ¬env.getConnectionIDOk then
    (.fatal ⟨.errOpConNotFound, "connection could not be resolved"⟩, Trace.empty)
  else if ¬env.getConnectionOk then
    (.fatal ⟨.errOpConNotFound, "connection could not be resolved"⟩, Trace.empty)
  else if ¬env.pfeOriginOk then
    (.fatal ⟨.errOpConNotFound, "connection could not be resolved"⟩, Trace.empty)
  else if ¬env.pathExists then
    match env.projectLocationOnDisk with
    | none => (.fatal ⟨.errOpRequest, "error fetching project metadata"⟩, Trace.empty)
    | some loc =>
      if projectPath ≠ loc then
        (.fatal ⟨.errBadPath, textProjectPathDoesNotExist⟩, Trace.empty)
      else
        let tr1 := { Trace.empty with notifiedMissingDir := true }
        match handleMissingProjectDir env with
        | some e => (.fatal ⟨.errBadPath, e.desc⟩, tr1)
        | none => (.fatal ⟨.errBadPath, textProjectPathDoesNotExist⟩, tr1)
  else
    let sf := syncFiles env projectPath synctime
    let tr1 := { Trace.empty with
      walked := true, refWalkCutoffs := sf.refCutoffs, fetchedBeforeList := true }
    match sf.info with
    | none => (.nilPanic, tr1)
    | some syncInfo =>
      let step :=
        match env.beforeFileList with
        | some bl =>
          let fn := findNewFiles bl projectPath syncInfo.fileList
          ({ syncInfo with modifiedList := syncInfo.modifiedList ++ fn.1 },
           { tr1 with reconciledNewFiles := some fn.1, reconcileUploads := fn.2 })
        | none => (syncInfo, tr1)
      let syncInfo2 := step.1
      let completeRequest : CompleteRequest :=
        ⟨syncInfo2.fileList, syncInfo2.directoryList, syncInfo2.modifiedList,
         env.currentSyncTimeMillis⟩
      let c := completeUpload env
      (.ok ⟨c.1, c.2, syncInfo2.UploadedFileList⟩ sf.err,
       { step.2 with completeRequests := step.2.completeRequests ++ [completeRequest] })

/-! ## Derived notions used by the specification statements -/

/-- The relative path under which a walked entry with physical path `path`
is recorded, as computed by the walker and by `syncFile`. -/
def relPath (projectPath path : List Char) : List Char :=
  toSlash (path.drop (projectPath.length + 1))

mutual
/-- Every file in the tree has modification time at most `c`. -/
def FSNode.allFilesLE : FSNode → Nat → Bool
  | .file _ m, c => m ≤ c
  | .dir _ _ cs, c => FSNode.allFilesLEList cs c

/-- List form of `FSNode.allFilesLE`. -/
def FSNode.allFilesLEList : List FSNode → Nat → Bool
  | [], _ => true
  | n :: rest, c => FSNode.allFilesLE n c && FSNode.allFilesLEList rest c
end

/-- One walker state extends another: each accumulated list grows by
appending only, and the reference-resync flag is sticky. -/
def SyncState.ext (st st2 : SyncState) : Prop :=
  st.fileList <+: st2.fileList ∧
  st.directoryList <+: st2.directoryList ∧
  st.modifiedList <+: st2.modifiedList ∧
  st.uploadedFiles <+: st2.uploadedFiles ∧
  (st.refPathsChanged = true → st2.refPathsChanged = true)

theorem SyncState.ext_refl (st : SyncState) : SyncState.ext st st :=
  ⟨List.prefix_refl _, List.prefix_refl _, List.prefix_refl _,
   List.prefix_refl _, fun h => h⟩

theorem SyncState.ext_trans {a b c : SyncState}
    (h1 : SyncState.ext a b) (h2 : SyncState.ext b c) : SyncState.ext a c := by
  obtain ⟨e1, e2, e3, e4, f1⟩ := h1
  obtain ⟨g1, g2, g3, g4, f2⟩ := h2
  exact ⟨e1.trans g1, e2.trans g2, e3.trans g3, e4.trans g4, fun h => f2 (f1 h)⟩

/-! ## Walker lemmas -/

set_option linter.unnecessarySeqFocus false

theorem walker_ext (env : Env) (pp : List Char) (st : SyncState)
    (path : List Char) (info : WalkerInfo) (e : Bool) :
    SyncState.ext st (walker env pp st path info e).1 := by
  unfold walker
  dsimp only
  split_ifs <;>
    refine ⟨?_, ?_, ?_, ?_, fun hb => ?_⟩ <;>
    simp_all [List.prefix_refl, List.prefix_append]

theorem walker_fileList_mem (env : Env) (pp : List Char) (st : SyncState)
    (path : List Char) (info : WalkerInfo) (e : Bool) :
    ∀ q ∈ (walker env pp st path info e).1.fileList,
      q ∈ st.fileList ∨ ignoreFileOrDirectory q false info.IgnoredPaths = false := by
  unfold walker
  dsimp only
  split_ifs <;> intro q hq <;> simp_all <;> rcases hq with hq | hq <;> simp_all

theorem walker_dirList_mem (env : Env) (pp : List Char) (st : SyncState)
    (path : List Char) (info : WalkerInfo) (e : Bool) :
    ∀ q ∈ (walker env pp st path info e).1.directoryList,
      q ∈ st.directoryList ∨ ignoreFileOrDirectory q true info.IgnoredPaths = false := by
  unfold walker
  dsimp only
  split_ifs <;> intro q hq <;> simp_all <;> rcases hq with hq | hq <;> simp_all

theorem walker_lens (env : Env) (pp : List Char) (st : SyncState)
    (path : List Char) (info : WalkerInfo) (e : Bool)
    (h : st.uploadedFiles.length = st.modifiedList.length) :
    (walker env pp st path info e).1.uploadedFiles.length =
      (walker env pp st path info e).1.modifiedList.length := by
  unfold walker
  dsimp only
  split_ifs <;> simp_all

theorem walker_noMod (env : Env) (pp : List Char) (st : SyncState)
    (path : List Char) (info : WalkerInfo) (e : Bool)
    (h : info.modTimeMillis ≤ info.LastSync) :
    (walker env pp st path info e).1.modifiedList = st.modifiedList ∧
    (walker env pp st path info e).1.uploadedFiles = st.uploadedFiles ∧
    (walker env pp st path info e).1.refPathsChanged = st.refPathsChanged := by
  unfold walker
  dsimp only
  split_ifs <;> simp_all <;> omega

theorem walker_modified_add (env : Env) (pp : List Char) (st : SyncState)
    (path : List Char) (info : WalkerInfo)
    (hpp : path ≠ pp) (hdir : info.isDir = false)
    (hig : ignoreFileOrDirectory (relPath pp path) false info.IgnoredPaths = false)
    (hm : info.modTimeMillis > info.LastSync) :
    relPath pp path ∈ (walker env pp st path info false).1.modifiedList := by
  unfold walker relPath
  dsimp only
  split_ifs <;> simp_all [relPath]

end Codewind

namespace Codewind

mutual
theorem goWalk_ext (env : Env) (pp : List Char) (ign : List (List Char))
    (ls : Nat) (path : List Char) (node : FSNode) (st : SyncState) :
    SyncState.ext st (goWalk env pp ign ls path node st).1 := by
  cases node with
  | file n m =>
    unfold goWalk
    exact walker_ext env pp st path ⟨path, false, m, ign, ls⟩ false
  | dir n r cs =>
    unfold goWalk
    by_cases hr : r = true
    · simp only [hr, if_true]
      rcases hw : walker env pp st path ⟨path, true, 0, ign, ls⟩ false with ⟨st1, c⟩
      have hext : SyncState.ext st st1 := by
        have := walker_ext env pp st path ⟨path, true, 0, ign, ls⟩ false
        rw [hw] at this; exact this
      cases c with
      | next =>
        exact SyncState.ext_trans hext (goWalkList_ext env pp ign ls path cs st1)
      | skipDir => exact hext
      | fail => exact hext
    · simp only [hr, if_false, Bool.false_eq_true]
      exact walker_ext env pp st path ⟨path, true, 0, ign, ls⟩ true

theorem goWalkList_ext (env : Env) (pp : List Char) (ign : List (List Char))
    (ls : Nat) (parentPath : List Char) (nodes : List FSNode) (st : SyncState) :
    SyncState.ext st (goWalkList env pp ign ls parentPath nodes st).1 := by
  cases nodes with
  | nil => exact SyncState.ext_refl st
  | cons child rest =>
    unfold goWalkList
    dsimp only
    rcases hw : goWalk env pp ign ls (parentPath ++ '/' :: child.name) child st with ⟨st1, c⟩
    have hext : SyncState.ext st st1 := by
      have := goWalk_ext env pp ign ls (parentPath ++ '/' :: child.name) child st
      rw [hw] at this; exact this
    cases c with
    | next =>
      exact SyncState.ext_trans hext (goWalkList_ext env pp ign ls parentPath rest st1)
    | skipDir =>
      by_cases hd : child.isDirNode = true
      · simp only [hd, if_true]
        exact SyncState.ext_trans hext (goWalkList_ext env pp ign ls parentPath rest st1)
      · simp only [hd, if_false]
        exact hext
    | fail => exact hext
end

end Codewind

namespace Codewind

mutual
theorem goWalk_fileList_mem (env : Env) (pp : List Char) (ign : List (List Char))
    (ls : Nat) (path : List Char) (node : FSNode) (st : SyncState) :
    ∀ q ∈ (goWalk env pp ign ls path node st).1.fileList,
      q ∈ st.fileList ∨ ignoreFileOrDirectory q false ign = false := by
  cases node with
  | file n m =>
    unfold goWalk
    exact walker_fileList_mem env pp st path ⟨path, false, m, ign, ls⟩ false
  | dir n r cs =>
    unfold goWalk
    by_cases hr : r = true
    · simp only [hr, if_true]
      rcases hw : walker env pp st path ⟨path, true, 0, ign, ls⟩ false with ⟨st1, c⟩
      have hstep : ∀ q ∈ st1.fileList,
          q ∈ st.fileList ∨ ignoreFileOrDirectory q false ign = false := by
        have := walker_fileList_mem env pp st path ⟨path, true, 0, ign, ls⟩ false
        rw [hw] at this; exact this
      cases c with
      | next =>
        intro q hq
        rcases goWalkList_fileList_mem env pp ign ls path cs st1 q hq with h | h
        · exact hstep q h
        · exact Or.inr h
      | skipDir => exact hstep
      | fail => exact hstep
    · simp only [hr, if_false, Bool.false_eq_true]
      exact walker_fileList_mem env pp st path ⟨path, true, 0, ign, ls⟩ true

theorem goWalkList_fileList_mem (env : Env) (pp : List Char) (ign : List (List Char))
    (ls : Nat) (parentPath : List Char) (nodes : List FSNode) (st : SyncState) :
    ∀ q ∈ (goWalkList env pp ign ls parentPath nodes st).1.fileList,
      q ∈ st.fileList ∨ ignoreFileOrDirectory q false ign = false := by
  cases nodes with
  | nil => exact fun q hq => Or.inl hq
  | cons child rest =>
    unfold goWalkList
    dsimp only
    rcases hw : goWalk env pp ign ls (parentPath ++ '/' :: child.name) child st with ⟨st1, c⟩
    have hstep : ∀ q ∈ st1.fileList,
        q ∈ st.fileList ∨ ignoreFileOrDirectory q false ign = false := by
      have := goWalk_fileList_mem env pp ign ls (parentPath ++ '/' :: child.name) child st
      rw [hw] at this; exact this
    have hrest : ∀ q ∈ (goWalkList env pp ign ls parentPath rest st1).1.fileList,
        q ∈ st.fileList ∨ ignoreFileOrDirectory q false ign = false := by
      intro q hq
      rcases goWalkList_fileList_mem env pp ign ls parentPath rest st1 q hq with h | h
      · exact hstep q h
      · exact Or.inr h
    cases c with
    | next => exact hrest
    | skipDir =>
      by_cases hd : child.isDirNode = true
      · simp only [hd, if_true]
        exact hrest
      · simp only [hd, if_false]
        exact hstep
    | fail => exact hstep
end

mutual
theorem goWalk_dirList_mem (env : Env) (pp : List Char) (ign : List (List Char))
    (ls : Nat) (path : List Char) (node : FSNode) (st : SyncState) :
    ∀ q ∈ (goWalk env pp ign ls path node st).1.directoryList,
      q ∈ st.directoryList ∨ ignoreFileOrDirectory q true ign = false := by
  cases node with
  | file n m =>
    unfold goWalk
    exact walker_dirList_mem env pp st path ⟨path, false, m, ign, ls⟩ false
  | dir n r cs =>
    unfold goWalk
    by_cases hr : r = true
    · simp only [hr, if_true]
      rcases hw : walker env pp st path ⟨path, true, 0, ign, ls⟩ false with ⟨st1, c⟩
      have hstep : ∀ q ∈ st1.directoryList,
          q ∈ st.directoryList ∨ ignoreFileOrDirectory q true ign = false := by
        have := walker_dirList_mem env pp st path ⟨path, true, 0, ign, ls⟩ false
        rw [hw] at this; exact this
      cases c with
      | next =>
        intro q hq
        rcases goWalkList_dirList_mem env pp ign ls path cs st1 q hq with h | h
        · exact hstep q h
        · exact Or.inr h
      | skipDir => exact hstep
      | fail => exact hstep
    · simp only [hr, if_false, Bool.false_eq_true]
      exact walker_dirList_mem env pp st path ⟨path, true, 0, ign, ls⟩ true

theorem goWalkList_dirList_mem (env : Env) (pp : List Char) (ign : List (List Char))
    (ls : Nat) (parentPath : List Char) (nodes : List FSNode) (st : SyncState) :
    ∀ q ∈ (goWalkList env pp ign ls parentPath nodes st).1.directoryList,
      q ∈ st.directoryList ∨ ignoreFileOrDirectory q true ign = false := by
  cases nodes with
  | nil => exact fun q hq => Or.inl hq
  | cons child rest =>
    unfold goWalkList
    dsimp only
    rcases hw : goWalk env pp ign ls (parentPath ++ '/' :: child.name) child st with ⟨st1, c⟩
    have hstep : ∀ q ∈ st1.directoryList,
        q ∈ st.directoryList ∨ ignoreFileOrDirectory q true ign = false := by
      have := goWalk_dirList_mem env pp ign ls (parentPath ++ '/' :: child.name) child st
      rw [hw] at this; exact this
    have hrest : ∀ q ∈ (goWalkList env pp ign ls parentPath rest st1).1.directoryList,
        q ∈ st.directoryList ∨ ignoreFileOrDirectory q true ign = false := by
      intro q hq
      rcases goWalkList_dirList_mem env pp ign ls parentPath rest st1 q hq with h | h
      · exact hstep q h
      · exact Or.inr h
    cases c with
    | next => exact hrest
    | skipDir =>
      by_cases hd : child.isDirNode = true
      · simp only [hd, if_true]
        exact hrest
      · simp only [hd, if_false]
        exact hstep
    | fail => exact hstep
end

end Codewind

namespace Codewind

mutual
theorem goWalk_lens (env : Env) (pp : List Char) (ign : List (List Char))
    (ls : Nat) (path : List Char) (node : FSNode) (st : SyncState)
    (h : st.uploadedFiles.length = st.modifiedList.length) :
    (goWalk env pp ign ls path node st).1.uploadedFiles.length =
      (goWalk env pp ign ls path node st).1.modifiedList.length := by
  cases node with
  | file n m =>
    unfold goWalk
    exact walker_lens env pp st path ⟨path, false, m, ign, ls⟩ false h
  | dir n r cs =>
    unfold goWalk
    by_cases hr : r = true
    · simp only [hr, if_true]
      rcases hw : walker env pp st path ⟨path, true, 0, ign, ls⟩ false with ⟨st1, c⟩
      have hstep : st1.uploadedFiles.length = st1.modifiedList.length := by
        have := walker_lens env pp st path ⟨path, true, 0, ign, ls⟩ false h
        rw [hw] at this; exact this
      cases c with
      | next => exact goWalkList_lens env pp ign ls path cs st1 hstep
      | skipDir => exact hstep
      | fail => exact hstep
    · simp only [hr, if_false, Bool.false_eq_true]
      exact walker_lens env pp st path ⟨path, true, 0, ign, ls⟩ true h

theorem goWalkList_lens (env : Env) (pp : List Char) (ign : List (List Char))
    (ls : Nat) (parentPath : List Char) (nodes : List FSNode) (st : SyncState)
    (h : st.uploadedFiles.length = st.modifiedList.length) :
    (goWalkList env pp ign ls parentPath nodes st).1.uploadedFiles.length =
      (goWalkList env pp ign ls parentPath nodes st).1.modifiedList.length := by
  cases nodes with
  | nil => exact h
  | cons child rest =>
    unfold goWalkList
    dsimp only
    rcases hw : goWalk env pp ign ls (parentPath ++ '/' :: child.name) child st with ⟨st1, c⟩
    have hstep : st1.uploadedFiles.length = st1.modifiedList.length := by
      have := goWalk_lens env pp ign ls (parentPath ++ '/' :: child.name) child st h
      rw [hw] at this; exact this
    cases c with
    | next => exact goWalkList_lens env pp ign ls parentPath rest st1 hstep
    | skipDir =>
      by_cases hd : child.isDirNode = true
      · simp only [hd, if_true]
        exact goWalkList_lens env pp ign ls parentPath rest st1 hstep
      · simp only [hd, if_false]
        exact hstep
    | fail => exact hstep
end

mutual
theorem goWalk_noMod (env : Env) (pp : List Char) (ign : List (List Char))
    (ls : Nat) (path : List Char) (node : FSNode) (st : SyncState)
    (h : FSNode.allFilesLE node ls = true) :
    (goWalk env pp ign ls path node st).1.modifiedList = st.modifiedList ∧
    (goWalk env pp ign ls path node st).1.uploadedFiles = st.uploadedFiles ∧
    (goWalk env pp ign ls path node st).1.refPathsChanged = st.refPathsChanged := by
  cases node with
  | file n m =>
    unfold goWalk
    exact walker_noMod env pp st path ⟨path, false, m, ign, ls⟩ false
      (by simpa [FSNode.allFilesLE] using h)
  | dir n r cs =>
    unfold goWalk
    by_cases hr : r = true
    · simp only [hr, if_true]
      rcases hw : walker env pp st path ⟨path, true, 0, ign, ls⟩ false with ⟨st1, c⟩
      have hstep : st1.modifiedList = st.modifiedList ∧
          st1.uploadedFiles = st.uploadedFiles ∧
          st1.refPathsChanged = st.refPathsChanged := by
        have := walker_noMod env pp st path ⟨path, true, 0, ign, ls⟩ false (Nat.zero_le _)
        rw [hw] at this; exact this
      cases c with
      | next =>
        have hcs : FSNode.allFilesLEList cs ls = true := by
          simpa [FSNode.allFilesLE] using h
        have := goWalkList_noMod env pp ign ls path cs st1 hcs
        exact ⟨this.1.trans hstep.1, this.2.1.trans hstep.2.1, this.2.2.trans hstep.2.2⟩
      | skipDir => exact hstep
      | fail => exact hstep
    · simp only [hr, if_false, Bool.false_eq_true]
      exact walker_noMod env pp st path ⟨path, true, 0, ign, ls⟩ true (Nat.zero_le _)

theorem goWalkList_noMod (env : Env) (pp : List Char) (ign : List (List Char))
    (ls : Nat) (parentPath : List Char) (nodes : List FSNode) (st : SyncState)
    (h : FSNode.allFilesLEList nodes ls = true) :
    (goWalkList env pp ign ls parentPath nodes st).1.modifiedList = st.modifiedList ∧
    (goWalkList env pp ign ls parentPath nodes st).1.uploadedFiles = st.uploadedFiles ∧
    (goWalkList env pp ign ls parentPath nodes st).1.refPathsChanged = st.refPathsChanged := by
  cases nodes with
  | nil => exact ⟨rfl, rfl, rfl⟩
  | cons child rest =>
    unfold goWalkList
    dsimp only
    have hchild : FSNode.allFilesLE child ls = true := by
      have := h; unfold FSNode.allFilesLEList at this; simp_all
    have hrest0 : FSNode.allFilesLEList rest ls = true := by
      have := h; unfold FSNode.allFilesLEList at this; simp_all
    rcases hw : goWalk env pp ign ls (parentPath ++ '/' :: child.name) child st with ⟨st1, c⟩
    have hstep : st1.modifiedList = st.modifiedList ∧
        st1.uploadedFiles = st.uploadedFiles ∧
        st1.refPathsChanged = st.refPathsChanged := by
      have := goWalk_noMod env pp ign ls (parentPath ++ '/' :: child.name) child st hchild
      rw [hw] at this; exact this
    have hrest := goWalkList_noMod env pp ign ls parentPath rest st1 hrest0
    cases c with
    | next =>
      exact ⟨hrest.1.trans hstep.1, hrest.2.1.trans hstep.2.1, hrest.2.2.trans hstep.2.2⟩
    | skipDir =>
      by_cases hd : child.isDirNode = true
      · simp only [hd, if_true]
        exact ⟨hrest.1.trans hstep.1, hrest.2.1.trans hstep.2.1, hrest.2.2.trans hstep.2.2⟩
      · simp only [hd, if_false]
        exact hstep
    | fail => exact hstep
end

end Codewind

namespace Codewind

theorem refLoop_ext (env : Env) (pp : List Char) (t : Nat)
    (refs : List RefPath) (st : SyncState) (e : String) (cuts : List Nat) :
    SyncState.ext st (refLoop env pp t refs st e cuts).1 := by
  induction refs generalizing st e cuts with
  | nil => exact SyncState.ext_refl st
  | cons r rest ih =>
    unfold refLoop
    dsimp only
    rcases env.refStat (resolveFrom pp r) with _ | info
    · exact ih st _ cuts
    · dsimp only
      by_cases hd : info.isDir = true
      · simp only [hd, if_true]
        exact ih st _ cuts
      · simp only [hd, if_false]
        exact SyncState.ext_trans
          (walker_ext env pp st (joinPath pp r.To)
            ⟨resolveFrom pp r, false, info.mtimeMillis, env.ignoredPathsList,
             if st.refPathsChanged then 0 else t⟩ false)
          (ih _ e _)

theorem refLoop_cutoffs_zero (env : Env) (pp : List Char) (t : Nat)
    (refs : List RefPath) (st : SyncState) (e : String) (cuts : List Nat)
    (hflag : st.refPathsChanged = true) :
    ∀ c ∈ (refLoop env pp t refs st e cuts).2.2, c ∈ cuts ∨ c = 0 := by
  induction refs generalizing st e cuts with
  | nil => exact fun c hc => Or.inl hc
  | cons r rest ih =>
    unfold refLoop
    dsimp only
    rcases env.refStat (resolveFrom pp r) with _ | info
    · exact ih st _ cuts hflag
    · dsimp only
      by_cases hd : info.isDir = true
      · simp only [hd, if_true]
        exact ih st _ cuts hflag
      · simp only [hd, if_false, hflag, if_true]
        intro c hc
        rcases hw : walker env pp st (joinPath pp r.To)
            ⟨resolveFrom pp r, false, info.mtimeMillis, env.ignoredPathsList, 0⟩
            false with ⟨st1, ctl⟩
        have hflag1 : st1.refPathsChanged = true := by
          have := (walker_ext env pp st (joinPath pp r.To)
            ⟨resolveFrom pp r, false, info.mtimeMillis, env.ignoredPathsList, 0⟩
            false).2.2.2.2 hflag
          rw [hw] at this; exact this
        rw [hw] at hc
        rcases ih st1 e (cuts ++ [0]) hflag1 c hc with h | h
        · rcases List.mem_append.mp h with h2 | h2
          · exact Or.inl h2
          · simp at h2; exact Or.inr h2
        · exact Or.inr h

end Codewind

namespace Codewind

theorem refLoop_modified_mem (env : Env) (pp : List Char) (t : Nat)
    (refs : List RefPath) (st : SyncState) (e : String) (cuts : List Nat)
    (hflag : st.refPathsChanged = true)
    (r : RefPath) (hr : r ∈ refs) (info : RefStat)
    (hstat : env.refStat (resolveFrom pp r) = some info)
    (hdir : info.isDir = false)
    (hm : info.mtimeMillis ≥ 1)
    (hpp : joinPath pp r.To ≠ pp)
    (hig : ignoreFileOrDirectory (relPath pp (joinPath pp r.To)) false
      env.ignoredPathsList = false) :
    relPath pp (joinPath pp r.To) ∈
      (refLoop env pp t refs st e cuts).1.modifiedList := by
  induction refs generalizing st e cuts with
  | nil => cases hr
  | cons r0 rest ih =>
    unfold refLoop
    dsimp only
    rcases List.mem_cons.mp hr with heq | hmem
    · subst heq
      rw [hstat]
      dsimp only
      simp only [hdir, if_false, hflag, if_true, Bool.false_eq_true]
      rcases hw : walker env pp st (joinPath pp r.To)
          ⟨resolveFrom pp r, false, info.mtimeMillis, env.ignoredPathsList, 0⟩
          false with ⟨st1, ctl⟩
      have hmem1 : relPath pp (joinPath pp r.To) ∈ st1.modifiedList := by
        have := walker_modified_add env pp st (joinPath pp r.To)
          ⟨resolveFrom pp r, false, info.mtimeMillis, env.ignoredPathsList, 0⟩
          hpp rfl hig (by show info.mtimeMillis > 0; omega)
        rw [hw] at this; exact this
      exact (refLoop_ext env pp t rest st1 e (cuts ++ [0])).2.2.1.subset hmem1
    · rcases h0 : env.refStat (resolveFrom pp r0) with _ | info0
      · exact ih st _ cuts hflag hmem
      · dsimp only
        by_cases hd : info0.isDir = true
        · simp only [hd, if_true]
          exact ih st _ cuts hflag hmem
        · simp only [hd, if_false, hflag, if_true, Bool.false_eq_true]
          rcases hw : walker env pp st (joinPath pp r0.To)
              ⟨resolveFrom pp r0, false, info0.mtimeMillis, env.ignoredPathsList, 0⟩
              false with ⟨st1, ctl⟩
          have hflag1 : st1.refPathsChanged = true := by
            have := (walker_ext env pp st (joinPath pp r0.To)
              ⟨resolveFrom pp r0, false, info0.mtimeMillis, env.ignoredPathsList, 0⟩
              false).2.2.2.2 hflag
            rw [hw] at this; exact this
          exact ih st1 e (cuts ++ [0]) hflag1 hmem

theorem refLoop_noMod (env : Env) (pp : List Char) (t : Nat)
    (refs : List RefPath) (st : SyncState) (e : String) (cuts : List Nat)
    (hflag : st.refPathsChanged = false)
    (hle : ∀ r ∈ refs, ∀ i, env.refStat (resolveFrom pp r) = some i →
      i.mtimeMillis ≤ t) :
    (refLoop env pp t refs st e cuts).1.modifiedList = st.modifiedList := by
  induction refs generalizing st e cuts with
  | nil => rfl
  | cons r0 rest ih =>
    unfold refLoop
    dsimp only
    rcases h0 : env.refStat (resolveFrom pp r0) with _ | info0
    · exact ih st _ cuts hflag (fun r hr i hi => hle r (List.mem_cons_of_mem r0 hr) i hi)
    · dsimp only
      by_cases hd : info0.isDir = true
      · simp only [hd, if_true]
        exact ih st _ cuts hflag (fun r hr i hi => hle r (List.mem_cons_of_mem r0 hr) i hi)
      · simp only [hd, if_false, hflag, Bool.false_eq_true, if_false]
        rcases hw : walker env pp st (joinPath pp r0.To)
            ⟨resolveFrom pp r0, false, info0.mtimeMillis, env.ignoredPathsList, t⟩
            false with ⟨st1, ctl⟩
        have hstep := walker_noMod env pp st (joinPath pp r0.To)
          ⟨resolveFrom pp r0, false, info0.mtimeMillis, env.ignoredPathsList, t⟩
          false (hle r0 (List.mem_cons_self r0 rest) info0 h0)
        rw [hw] at hstep
        have hflag1 : st1.refPathsChanged = false := hstep.2.2.trans hflag
        have := ih st1 e (cuts ++ [t]) hflag1
          (fun r hr i hi => hle r (List.mem_cons_of_mem r0 hr) i hi)
        rw [this, hstep.1]

theorem refLoop_lens (env : Env) (pp : List Char) (t : Nat)
    (refs : List RefPath) (st : SyncState) (e : String) (cuts : List Nat)
    (h : st.uploadedFiles.length = st.modifiedList.length) :
    (refLoop env pp t refs st e cuts).1.uploadedFiles.length =
      (refLoop env pp t refs st e cuts).1.modifiedList.length := by
  induction refs generalizing st e cuts with
  | nil => exact h
  | cons r0 rest ih =>
    unfold refLoop
    dsimp only
    rcases h0 : env.refStat (resolveFrom pp r0) with _ | info0
    · exact ih st _ cuts h
    · dsimp only
      by_cases hd : info0.isDir = true
      · simp only [hd, if_true]
        exact ih st _ cuts h
      · simp only [hd, if_false]
        rcases hw : walker env pp st (joinPath pp r0.To)
            ⟨resolveFrom pp r0, false, info0.mtimeMillis, env.ignoredPathsList,
             if st.refPathsChanged = true then 0 else t⟩
            false with ⟨st1, ctl⟩
        have hstep := walker_lens env pp st (joinPath pp r0.To)
          ⟨resolveFrom pp r0, false, info0.mtimeMillis, env.ignoredPathsList,
           if st.refPathsChanged = true then 0 else t⟩
          false h
        rw [hw] at hstep
        exact ih st1 e _ hstep

end Codewind

namespace Codewind

theorem existsIn_eq_false_iff (v : List Char) (l : List (List Char)) :
    existsIn v l = false ↔ v ∉ l := by
  induction l with
  | nil => simp [existsIn]
  | cons a rest ih =>
    unfold existsIn
    by_cases ha : a = v
    · subst ha
      simp
    · have hv : v ≠ a := fun h => ha h.symm
      rw [if_neg ha, ih]
      simp [List.mem_cons, hv]

theorem findNewFiles_mem (bl : List (List Char)) (pp : List Char)
    (after : List (List Char)) (f : List Char)
    (hf : f ∈ after) (hnew : existsIn f bl = false) :
    f ∈ (findNewFiles bl pp after).1 ∧
      joinPath pp f ∈ (findNewFiles bl pp after).2 := by
  induction after with
  | nil => cases hf
  | cons a rest ih =>
    unfold findNewFiles
    dsimp only
    rcases List.mem_cons.mp hf with heq | hmem
    · subst heq
      simp only [hnew, Bool.false_eq_true, not_false_iff, if_true]
      exact ⟨List.mem_cons_self _ _, List.mem_cons_self _ _⟩
    · by_cases hb : existsIn a bl = true
      · simp only [hb, not_true, if_false]
        exact ih hmem
      · simp only [hb, if_true]
        have := ih hmem
        exact ⟨List.mem_cons_of_mem _ this.1, List.mem_cons_of_mem _ this.2⟩

theorem findNewFiles_nil_of_covered (bl : List (List Char)) (pp : List Char)
    (after : List (List Char))
    (hcov : ∀ f ∈ after, existsIn f bl = true) :
    findNewFiles bl pp after = ([], []) := by
  induction after with
  | nil => rfl
  | cons a rest ih =>
    unfold findNewFiles
    dsimp only
    have ha := hcov a (List.mem_cons_self a rest)
    simp only [ha, not_true, if_false]
    exact ih (fun f hf => hcov f (List.mem_cons_of_mem a hf))

end Codewind

namespace Codewind

/-- Claim C2, counterexample: with rule list `["[", "a.txt"]` and relative
path `"a.txt"`, the second rule glob-matches the path, yet
`ignoreFileOrDirectory` returns false, because the malformed first rule `"["`
makes the whole call return false immediately — a malformed glob DOES
prevent later rules in the list from matching, refuting the claimed
equivalence. -/
theorem ignoreFileOrDirectory_not_simple_iff :
    ¬ (ignoreFileOrDirectory (str "a.txt") false [str "[", str "a.txt"] = true ↔
       ∃ rule ∈ [str "[", str "a.txt"],
         goMatch (cleanRule rule) (str "a.txt") = some true) := by
  decide

/-- Claim C2, amended: `ignoreFileOrDirectory` returns true iff some rule
in the list, after cleaning and stripping a leading separator, glob-matches
the full relative path AND every earlier rule in the list evaluates to a
well-formed non-match; the first matching rule short-circuits with true, no
rule matching yields false, and a rule whose pattern is a malformed glob
makes the call return false immediately, skipping all later rules. -/
theorem ignoreFileOrDirectory_iff (name : List Char) (isDir : Bool)
    (rules : List (List Char)) :
    ignoreFileOrDirectory name isDir rules = true ↔
    ∃ l1 r l2, rules = l1 ++ r :: l2 ∧
      (∀ q ∈ l1, goMatch (cleanRule q) name = some false) ∧
      goMatch (cleanRule r) name = some true := by
  induction rules with
  | nil =>
    simp only [ignoreFileOrDirectory, Bool.false_eq_true, false_iff]
    rintro ⟨l1, r, l2, h, -, -⟩
    exact absurd h (by simp)
  | cons rule rest ih =>
    unfold ignoreFileOrDirectory
    rcases hg : goMatch (cleanRule rule) name with _ | b
    · simp only [Bool.false_eq_true, false_iff]
      rintro ⟨l1, r, l2, hsplit, hpre, hr⟩
      cases l1 with
      | nil =>
        simp only [List.nil_append, List.cons.injEq] at hsplit
        rw [hsplit.1] at hg
        rw [hg] at hr
        cases hr
      | cons a l1x =>
        simp only [List.cons_append, List.cons.injEq] at hsplit
        have := hpre a (List.mem_cons_self _ _)
        rw [hsplit.1] at hg
        rw [hg] at this
        cases this
    · cases b with
      | true =>
        constructor
        · intro _
          exact ⟨[], rule, rest, rfl, by simp, hg⟩
        · intro _
          rfl
      | false =>
        rw [ih]
        constructor
        · rintro ⟨l1, r, l2, hsplit, hpre, hr⟩
          refine ⟨rule :: l1, r, l2, by rw [hsplit]; rfl, ?_, hr⟩
          intro q hq
          rcases List.mem_cons.mp hq with hqe | hqm
          · rw [hqe]; exact hg
          · exact hpre q hqm
        · rintro ⟨l1, r, l2, hsplit, hpre, hr⟩
          cases l1 with
          | nil =>
            simp only [List.nil_append, List.cons.injEq] at hsplit
            rw [hsplit.1] at hg
            rw [hg] at hr
            cases hr
          | cons a l1x =>
            simp only [List.cons_append, List.cons.injEq] at hsplit
            refine ⟨l1x, r, l2, hsplit.2, ?_, hr⟩
            intro q hq
            exact hpre q (List.mem_cons_of_mem a hq)

end Codewind

namespace Codewind

theorem ignoreFileOrDirectory_isDir_eq (name : List Char) (d1 d2 : Bool)
    (rules : List (List Char)) :
    ignoreFileOrDirectory name d1 rules = ignoreFileOrDirectory name d2 rules := by
  induction rules with
  | nil => rfl
  | cons a rest ih =>
    unfold ignoreFileOrDirectory
    rcases hg : goMatch (cleanRule a) name with _ | b
    · rfl
    · cases b
      · exact ih
      · rfl

/-- A fixed base environment for concrete witness runs: every transport
call succeeds, the project tree holds one stale file. -/
def envW : Env := {
  currentSyncTimeMillis := 1000
  pathExists := true
  getConnectionIDOk := true
  getConnectionOk := true
  pfeOriginOk := true
  projectLocationOnDisk := some (str "/p")
  missingLocalDirResp := some 200
  beforeFileList := some []
  completeResp := some ("200 OK", 200)
  statOk := fun _ => true
  readOk := fun _ => true
  upload := fun _ => some ("200 OK", 200)
  refStat := fun _ => none
  ignoredPathsList := []
  refPathsList := []
  fs := .dir (str "p") true [.file (str "a.txt") 50] }

/-- Claim C7: when a directory's relative path is ignored, the walker skips
the entire subtree: the walk of that directory returns the state unchanged
(so neither the directory nor any descendant is recorded in the file,
directory or modified list, and no upload outcome is added), with `SkipDir`
as control when the directory is readable (or the read error when it is
not, which aborts the pass before any list exists). -/
theorem ignored_directory_prunes_subtree (env : Env) (pp : List Char)
    (ign : List (List Char)) (ls : Nat) (path name : List Char) (r : Bool)
    (cs : List FSNode) (st : SyncState)
    (hpp : path ≠ pp)
    (hig : ignoreFileOrDirectory (relPath pp path) true ign = true) :
    goWalk env pp ign ls path (.dir name r cs) st =
      (st, if r then WalkCtl.skipDir else WalkCtl.fail) := by
  unfold goWalk walker relPath at *
  by_cases hr : r = true <;> simp_all

/-- Witness for claim C7 at a concrete instance: the ignored directory
`build` containing a modified file is pruned entirely. -/
theorem ignored_directory_prunes_subtree_witness :
    str "/p/build" ≠ str "/p" ∧
    ignoreFileOrDirectory (relPath (str "/p") (str "/p/build")) true
      [str "build"] = true ∧
    goWalk envW (str "/p") [str "build"] 100 (str "/p/build")
      (.dir (str "build") true [.file (str "out.bin") 500]) SyncState.empty =
      (SyncState.empty, WalkCtl.skipDir) := by
  refine ⟨by decide, by decide, ?_⟩
  have := ignored_directory_prunes_subtree envW (str "/p") [str "build"] 100
    (str "/p/build") (str "build") true [.file (str "out.bin") 500]
    SyncState.empty (by decide) (by decide)
  simpa using this

end Codewind

namespace Codewind

/-- Environment refuting claim C5: the reference target path is the
malformed glob pattern left bracket, and a physical file with that name is
in the project tree. -/
def envC5 : Env := { envW with
  refPathsList := [⟨str "/x", str "["⟩],
  fs := .dir (str "p") true [.file (str "[") 1] }

/-- Claim C5, counterexample: a reference whose target path is the malformed
glob pattern left bracket does appear in the primary walk's file list when a
physical file with that name exists, because the malformed pattern never
matches (the ignore evaluation aborts with false). -/
theorem refTo_in_primary_fileList :
    ¬ (∀ r ∈ envC5.refPathsList,
        r.To ∉ (primaryWalk envC5 (str "/p") 5).1.fileList ∧
        r.To ∉ (primaryWalk envC5 (str "/p") 5).1.directoryList) := by
  decide

/-- Claim C5, amended: every reference target path is appended to the
combined ignore set used for the primary tree walk, and whenever the ignore
evaluation of that path against the combined set yields true (as it does for
every well-formed self-matching pattern, but not for a malformed glob such
as a lone left bracket), the path appears in neither the file list nor the
directory list of the primary walk. -/
theorem refTo_excluded_when_ignored (env : Env) (pp : List Char) (t : Nat)
    (r : RefPath) (hr : r ∈ env.refPathsList)
    (hig : ignoreFileOrDirectory r.To false
      (cwCombinedIgnoredPathsList env.ignoredPathsList env.refPathsList) = true) :
    r.To ∈ cwCombinedIgnoredPathsList env.ignoredPathsList env.refPathsList ∧
    r.To ∉ (primaryWalk env pp t).1.fileList ∧
    r.To ∉ (primaryWalk env pp t).1.directoryList := by
  refine ⟨List.mem_append.mpr (Or.inr (List.mem_map.mpr ⟨r, hr, rfl⟩)), ?_, ?_⟩
  · intro hmem
    have hm : r.To ∈ (goWalk env pp
        (cwCombinedIgnoredPathsList env.ignoredPathsList env.refPathsList) t
        pp env.fs SyncState.empty).1.fileList := hmem
    rcases goWalk_fileList_mem env pp _ t pp env.fs SyncState.empty r.To hm with h | h
    · exact absurd h (by simp [SyncState.empty])
    · rw [hig] at h
      cases h
  · intro hmem
    have hm : r.To ∈ (goWalk env pp
        (cwCombinedIgnoredPathsList env.ignoredPathsList env.refPathsList) t
        pp env.fs SyncState.empty).1.directoryList := hmem
    rcases goWalk_dirList_mem env pp _ t pp env.fs SyncState.empty r.To hm with h | h
    · exact absurd h (by simp [SyncState.empty])
    · rw [ignoreFileOrDirectory_isDir_eq r.To true false, hig] at h
      cases h

/-- Environment for the witness of amended claim C5: a well-formed reference
target that also physically exists. -/
def envC5w : Env := { envW with
  refPathsList := [⟨str "/x", str "b.txt"⟩],
  fs := .dir (str "p") true [.file (str "b.txt") 1, .file (str "a.txt") 1] }

/-- Witness for amended claim C5 at a concrete instance. -/
theorem refTo_excluded_when_ignored_witness :
    (⟨str "/x", str "b.txt"⟩ : RefPath) ∈ envC5w.refPathsList ∧
    ignoreFileOrDirectory (str "b.txt") false
      (cwCombinedIgnoredPathsList envC5w.ignoredPathsList envC5w.refPathsList) = true ∧
    (str "b.txt" ∈
        cwCombinedIgnoredPathsList envC5w.ignoredPathsList envC5w.refPathsList ∧
      str "b.txt" ∉ (primaryWalk envC5w (str "/p") 5).1.fileList ∧
      str "b.txt" ∉ (primaryWalk envC5w (str "/p") 5).1.directoryList) :=
  ⟨by decide, by decide,
    refTo_excluded_when_ignored envC5w (str "/p") 5 ⟨str "/x", str "b.txt"⟩
      (by decide) (by decide)⟩

end Codewind

namespace Codewind

/-- Claim C6: if the primary walk found the reference-path rule file
modified (the captured flag is set after it), then every reference-path
walk of the same pass uses cutoff zero, and every valid, non-ignored,
non-root referenced file with a positive modification time is re-included
in the modified list of the pass. -/
theorem refpaths_change_forces_zero_cutoff (env : Env) (pp : List Char) (t : Nat)
    (hctl : ¬ (primaryWalk env pp t).2 = WalkCtl.fail)
    (hflag : (primaryWalk env pp t).1.refPathsChanged = true) :
    (∀ c ∈ (syncFiles env pp t).refCutoffs, c = 0) ∧
    (∀ r ∈ env.refPathsList, ∀ info, env.refStat (resolveFrom pp r) = some info →
      info.isDir = false → 1 ≤ info.mtimeMillis → joinPath pp r.To ≠ pp →
      ignoreFileOrDirectory (relPath pp (joinPath pp r.To)) false
        env.ignoredPathsList = false →
      ∀ si, (syncFiles env pp t).info = some si →
        relPath pp (joinPath pp r.To) ∈ si.modifiedList) := by
  have hsf : syncFiles env pp t =
      { info := some ⟨(refLoop env pp t env.refPathsList (primaryWalk env pp t).1 "" []).1.fileList,
          (refLoop env pp t env.refPathsList (primaryWalk env pp t).1 "" []).1.directoryList,
          (refLoop env pp t env.refPathsList (primaryWalk env pp t).1 "" []).1.modifiedList,
          (refLoop env pp t env.refPathsList (primaryWalk env pp t).1 "" []).1.uploadedFiles⟩,
        err := if (refLoop env pp t env.refPathsList (primaryWalk env pp t).1 "" []).2.1 ≠ "" then
            some ⟨.errOpSyncRef, (refLoop env pp t env.refPathsList (primaryWalk env pp t).1 "" []).2.1⟩
          else none,
        refCutoffs := (refLoop env pp t env.refPathsList (primaryWalk env pp t).1 "" []).2.2 } := by
    unfold syncFiles
    rw [if_neg hctl]
  constructor
  · intro c hc
    rw [hsf] at hc
    rcases refLoop_cutoffs_zero env pp t env.refPathsList (primaryWalk env pp t).1
        "" [] hflag c hc with h | h
    · cases h
    · exact h
  · intro r hr info hstat hdir hm hpp hig si hsi
    rw [hsf] at hsi
    have hsi2 : si = ⟨(refLoop env pp t env.refPathsList (primaryWalk env pp t).1 "" []).1.fileList,
        (refLoop env pp t env.refPathsList (primaryWalk env pp t).1 "" []).1.directoryList,
        (refLoop env pp t env.refPathsList (primaryWalk env pp t).1 "" []).1.modifiedList,
        (refLoop env pp t env.refPathsList (primaryWalk env pp t).1 "" []).1.uploadedFiles⟩ := by
      cases hsi2 : hsi
      rfl
    rw [hsi2]
    exact refLoop_modified_mem env pp t env.refPathsList (primaryWalk env pp t).1
      "" [] hflag r hr info hstat hdir hm hpp hig

end Codewind

namespace Codewind

theorem SyncProject_eq_panic (env : Env) (pp : List Char) (t : Nat)
    (h1 : env.getConnectionIDOk = true) (h2 : env.getConnectionOk = true)
    (h3 : env.pfeOriginOk = true) (h4 : env.pathExists = true)
    (hsf : (syncFiles env pp t).info = none) :
    SyncProject env pp t =
      (.nilPanic, ⟨false, true, true, none, [], [],
        (syncFiles env pp t).refCutoffs⟩) := by
  unfold SyncProject
  rw [h1, h2, h3, h4]
  simp only [not_true, ite_false, ite_not, if_false]
  rw [hsf]
  simp [Trace.empty]

theorem SyncProject_eq_ok_some (env : Env) (pp : List Char) (t : Nat)
    (h1 : env.getConnectionIDOk = true) (h2 : env.getConnectionOk = true)
    (h3 : env.pfeOriginOk = true) (h4 : env.pathExists = true)
    (si : SyncInfo) (hsf : (syncFiles env pp t).info = some si)
    (bl : List (List Char)) (hbl : env.beforeFileList = some bl) :
    SyncProject env pp t =
      (.ok ⟨(completeUpload env).1, (completeUpload env).2, si.UploadedFileList⟩
         (syncFiles env pp t).err,
       ⟨false, true, true, some (findNewFiles bl pp si.fileList).1,
        (findNewFiles bl pp si.fileList).2,
        [⟨si.fileList, si.directoryList,
          si.modifiedList ++ (findNewFiles bl pp si.fileList).1,
          env.currentSyncTimeMillis⟩],
        (syncFiles env pp t).refCutoffs⟩) := by
  unfold SyncProject
  rw [h1, h2, h3, h4]
  simp only [not_true, ite_false, ite_not, if_false]
  rw [hsf, hbl]
  simp [Trace.empty]

theorem SyncProject_eq_ok_none (env : Env) (pp : List Char) (t : Nat)
    (h1 : env.getConnectionIDOk = true) (h2 : env.getConnectionOk = true)
    (h3 : env.pfeOriginOk = true) (h4 : env.pathExists = true)
    (si : SyncInfo) (hsf : (syncFiles env pp t).info = some si)
    (hbl : env.beforeFileList = none) :
    SyncProject env pp t =
      (.ok ⟨(completeUpload env).1, (completeUpload env).2, si.UploadedFileList⟩
         (syncFiles env pp t).err,
       ⟨false, true, true, none, [],
        [⟨si.fileList, si.directoryList, si.modifiedList,
          env.currentSyncTimeMillis⟩],
        (syncFiles env pp t).refCutoffs⟩) := by
  unfold SyncProject
  rw [h1, h2, h3, h4]
  simp only [not_true, ite_false, ite_not, if_false]
  rw [hsf, hbl]
  simp [Trace.empty]

end Codewind

namespace Codewind

/-- Claim C1: when the walk of the physical project tree hands a non-nil
error to the walker function, the pass is aborted abnormally — `syncFiles`
returns a fatal error and a nil `SyncInfo`, and `SyncProject`, which reads
the nil result unconditionally, dies with a nil-pointer dereference — so no
reconciliation against the remote file list is performed, no reconciliation
upload happens, and no completion manifest is sent for the pass. -/
theorem walk_error_aborts_pass (env : Env) (pp : List Char) (t : Nat)
    (h1 : env.getConnectionIDOk = true) (h2 : env.getConnectionOk = true)
    (h3 : env.pfeOriginOk = true) (h4 : env.pathExists = true)
    (hfail : (primaryWalk env pp t).2 = WalkCtl.fail) :
    (SyncProject env pp t).1 = SyncOutcome.nilPanic ∧
    (SyncProject env pp t).2.reconciledNewFiles = none ∧
    (SyncProject env pp t).2.reconcileUploads = [] ∧
    (SyncProject env pp t).2.completeRequests = [] := by
  have hsf : (syncFiles env pp t).info = none := by
    unfold syncFiles
    rw [if_pos hfail]
  rw [SyncProject_eq_panic env pp t h1 h2 h3 h4 hsf]
  exact ⟨rfl, rfl, rfl, rfl⟩

/-- Environment for the witness of claim C1: an unreadable subdirectory. -/
def envC1 : Env := { envW with
  fs := .dir (str "p") true
    [.dir (str "sub") false [.file (str "x") 500], .file (str "a.txt") 500] }

/-- Witness for claim C1 at a concrete instance. -/
theorem walk_error_aborts_pass_witness :
    (primaryWalk envC1 (str "/p") 100).2 = WalkCtl.fail ∧
    ((SyncProject envC1 (str "/p") 100).1 = SyncOutcome.nilPanic ∧
     (SyncProject envC1 (str "/p") 100).2.reconciledNewFiles = none ∧
     (SyncProject envC1 (str "/p") 100).2.reconcileUploads = [] ∧
     (SyncProject envC1 (str "/p") 100).2.completeRequests = []) :=
  ⟨by decide,
   walk_error_aborts_pass envC1 (str "/p") 100 rfl rfl rfl rfl (by decide)⟩

/-- Witness environment for claim C6: the reference-rule file is modified
after the cutoff, and one valid reference exists. -/
def envC6 : Env := { envW with
  refPathsList := [⟨str "/tmp/lib.js", str "lib.js"⟩],
  refStat := fun p => if p = str "/tmp/lib.js" then some ⟨false, 10⟩ else none,
  fs := .dir (str "p") true
    [.file (str ".cw-refpaths.json") 500, .file (str "a.txt") 1] }

/-- Witness for claim C6 at a concrete instance: the rule file is modified
(mtime 500 > cutoff 100), so the one reference walk runs with cutoff zero
and the referenced file (mtime 10, below the pass cutoff) is still
re-included in the modified list. -/
theorem refpaths_change_forces_zero_cutoff_witness :
    (¬ (primaryWalk envC6 (str "/p") 100).2 = WalkCtl.fail) ∧
    (primaryWalk envC6 (str "/p") 100).1.refPathsChanged = true ∧
    (∀ c ∈ (syncFiles envC6 (str "/p") 100).refCutoffs, c = 0) ∧
    ∀ si, (syncFiles envC6 (str "/p") 100).info = some si →
      relPath (str "/p") (joinPath (str "/p") (str "lib.js")) ∈ si.modifiedList := by
  refine ⟨by decide, by decide, ?_, ?_⟩
  · exact (refpaths_change_forces_zero_cutoff envC6 (str "/p") 100
      (by decide) (by decide)).1
  · exact fun si hsi =>
      (refpaths_change_forces_zero_cutoff envC6 (str "/p") 100
        (by decide) (by decide)).2
      ⟨str "/tmp/lib.js", str "lib.js"⟩ (by decide) ⟨false, 10⟩ (by decide)
      rfl (by decide) (by decide) (by decide) si hsi

/-- Claim C8: with the local project path absent, a recorded location that
differs from the supplied path aborts the pass with a bad-path fatal error
before any walk, upload, notification or completion; a recorded location
equal to the supplied path sends the missing-directory notification and
aborts with a bad-path fatal error, again before any walk, upload or
completion. -/
theorem missing_path_aborts (env : Env) (pp : List Char) (t : Nat)
    (h1 : env.getConnectionIDOk = true) (h2 : env.getConnectionOk = true)
    (h3 : env.pfeOriginOk = true) (h4 : env.pathExists = false)
    (loc : List Char) (hloc : env.projectLocationOnDisk = some loc) :
    (pp ≠ loc →
      (SyncProject env pp t).1 =
        SyncOutcome.fatal ⟨.errBadPath, textProjectPathDoesNotExist⟩ ∧
      (SyncProject env pp t).2.notifiedMissingDir = false ∧
      (SyncProject env pp t).2.walked = false ∧
      (SyncProject env pp t).2.reconciledNewFiles = none ∧
      (SyncProject env pp t).2.reconcileUploads = [] ∧
      (SyncProject env pp t).2.completeRequests = []) ∧
    (pp = loc →
      (SyncProject env pp t).2.notifiedMissingDir = true ∧
      (∃ e, (SyncProject env pp t).1 = SyncOutcome.fatal e ∧ e.op = .errBadPath) ∧
      (SyncProject env pp t).2.walked = false ∧
      (SyncProject env pp t).2.reconciledNewFiles = none ∧
      (SyncProject env pp t).2.reconcileUploads = [] ∧
      (SyncProject env pp t).2.completeRequests = []) := by
  have hbase : SyncProject env pp t =
      if pp = loc then
        (match handleMissingProjectDir env with
         | some e => (SyncOutcome.fatal ⟨.errBadPath, e.desc⟩,
             { Trace.empty with notifiedMissingDir := true })
         | none => (SyncOutcome.fatal ⟨.errBadPath, textProjectPathDoesNotExist⟩,
             { Trace.empty with notifiedMissingDir := true }))
      else (SyncOutcome.fatal ⟨.errBadPath, textProjectPathDoesNotExist⟩,
        Trace.empty) := by
    unfold SyncProject
    rw [h1, h2, h3, h4, hloc]
    simp only [not_true, ite_false, ite_not, if_false, Bool.false_eq_true,
      not_false_iff, if_true]
  constructor
  · intro hne
    rw [hbase, if_neg hne]
    exact ⟨rfl, rfl, rfl, rfl, rfl, rfl⟩
  · intro heq
    rw [hbase, if_pos heq]
    rcases handleMissingProjectDir env with _ | e
    · exact ⟨rfl, ⟨_, rfl, rfl⟩, rfl, rfl, rfl, rfl⟩
    · exact ⟨rfl, ⟨_, rfl, rfl⟩, rfl, rfl, rfl, rfl⟩

/-- Environment for claim C8, mismatch case: the path is absent and the
remote records a different location. -/
def envC8a : Env :=
  { envW with pathExists := false, projectLocationOnDisk := some (str "/q") }

/-- Environment for claim C8, match case: the path is absent and the remote
records the same location. -/
def envC8b : Env := { envW with pathExists := false }

/-- Witness for claim C8 at concrete instances: one run with a mismatched
recorded location (no notification), one with a matching one (notification
sent); both abort before the walk. -/
theorem missing_path_aborts_witness :
    ((SyncProject envC8a (str "/p") 100).1 =
      SyncOutcome.fatal ⟨.errBadPath, textProjectPathDoesNotExist⟩ ∧
     (SyncProject envC8a (str "/p") 100).2.notifiedMissingDir = false) ∧
    ((SyncProject envC8b (str "/p") 100).2.notifiedMissingDir = true ∧
     (SyncProject envC8b (str "/p") 100).2.walked = false ∧
     (SyncProject envC8b (str "/p") 100).2.completeRequests = []) := by
  have hA := (missing_path_aborts envC8a (str "/p") 100
      rfl rfl rfl rfl (str "/q") rfl).1 (by decide)
  have hB := (missing_path_aborts envC8b (str "/p") 100
      rfl rfl rfl rfl (str "/p") rfl).2 rfl
  exact ⟨⟨hA.1, hA.2.1⟩, hB.1, hB.2.2.1, hB.2.2.2.2.2⟩

end Codewind

namespace Codewind

theorem syncFiles_lens (env : Env) (pp : List Char) (t : Nat) (si : SyncInfo)
    (hsf : (syncFiles env pp t).info = some si) :
    si.UploadedFileList.length = si.modifiedList.length := by
  unfold syncFiles at hsf
  by_cases hc : (primaryWalk env pp t).2 = WalkCtl.fail
  · rw [if_pos hc] at hsf
    cases hsf
  · rw [if_neg hc] at hsf
    have h0 : SyncState.empty.uploadedFiles.length =
        SyncState.empty.modifiedList.length := rfl
    have h1 : (primaryWalk env pp t).1.uploadedFiles.length =
        (primaryWalk env pp t).1.modifiedList.length :=
      goWalk_lens env pp
        (cwCombinedIgnoredPathsList env.ignoredPathsList env.refPathsList) t
        pp env.fs SyncState.empty h0
    have h2 := refLoop_lens env pp t env.refPathsList (primaryWalk env pp t).1
      "" [] h1
    cases hsf
    exact h2

/-- Claim C3: after the walk phases, every file present in the computed file
list but absent from the remote's prior list is appended to the modified
list of the completion manifest (regardless of its timestamp — no timestamp
condition appears) and its physical path is passed to the per-file upload;
and when fetching the remote's prior list fails, reconciliation is skipped
while the pass still sends its one completion manifest and returns a normal
response. -/
theorem reconciliation_uploads_new_files (env : Env) (pp : List Char) (t : Nat)
    (h1 : env.getConnectionIDOk = true) (h2 : env.getConnectionOk = true)
    (h3 : env.pfeOriginOk = true) (h4 : env.pathExists = true)
    (si : SyncInfo) (hsf : (syncFiles env pp t).info = some si) :
    (∀ bl, env.beforeFileList = some bl →
      ∀ f ∈ si.fileList, existsIn f bl = false →
        (∀ cr ∈ (SyncProject env pp t).2.completeRequests, f ∈ cr.ModifiedList) ∧
        joinPath pp f ∈ (SyncProject env pp t).2.reconcileUploads) ∧
    (env.beforeFileList = none →
      (SyncProject env pp t).2.reconciledNewFiles = none ∧
      (SyncProject env pp t).2.completeRequests.length = 1 ∧
      ∃ resp warn, (SyncProject env pp t).1 = SyncOutcome.ok resp warn) := by
  constructor
  · intro bl hbl f hf hnew
    rw [SyncProject_eq_ok_some env pp t h1 h2 h3 h4 si hsf bl hbl]
    have hfn := findNewFiles_mem bl pp si.fileList f hf hnew
    constructor
    · intro cr hcr
      have hcr2 : cr ∈ [(⟨si.fileList, si.directoryList,
          si.modifiedList ++ (findNewFiles bl pp si.fileList).1,
          env.currentSyncTimeMillis⟩ : CompleteRequest)] := hcr
      rw [List.mem_singleton] at hcr2
      rw [hcr2]
      exact List.mem_append.mpr (Or.inr hfn.1)
    · exact hfn.2
  · intro hbl
    rw [SyncProject_eq_ok_none env pp t h1 h2 h3 h4 si hsf hbl]
    exact ⟨rfl, rfl, _, _, rfl⟩

/-- Witness for claim C3 at a concrete instance: a stale file absent from
the remote's list is re-uploaded and appears in the manifest's modified
list. -/
theorem reconciliation_uploads_new_files_witness :
    (syncFiles envW (str "/p") 100).info = some ⟨[str "a.txt"], [], [], []⟩ ∧
    envW.beforeFileList = some [] ∧
    str "a.txt" ∈ [str "a.txt"] ∧ existsIn (str "a.txt") [] = false ∧
    ((∀ cr ∈ (SyncProject envW (str "/p") 100).2.completeRequests,
        str "a.txt" ∈ cr.ModifiedList) ∧
     joinPath (str "/p") (str "a.txt") ∈
        (SyncProject envW (str "/p") 100).2.reconcileUploads) := by
  refine ⟨by decide, rfl, by decide, by decide, ?_⟩
  exact (reconciliation_uploads_new_files envW (str "/p") 100 rfl rfl rfl rfl
    ⟨[str "a.txt"], [], [], []⟩ (by decide)).1 [] rfl (str "a.txt")
    (by decide) (by decide)

end Codewind

namespace Codewind

/-- Claim C4: a per-file upload that fails at `os.Stat`, at the read, or at
the transport yields the outcome with status text `Failed` and status code
zero; failed uploads never block others nor the completion phase — every
entry of the modified list has a matching upload outcome (their counts are
equal), the pass sends exactly one completion manifest, and the response
carries the walk-phase outcomes. -/
theorem failed_upload_does_not_block (env : Env) (pp path : List Char) (t : Nat) :
    ((env.statOk path = false ∨ env.readOk path = false ∨ env.upload path = none) →
        syncFile env pp path = ⟨relPath pp path, "Failed", 0⟩) ∧
    (env.getConnectionIDOk = true → env.getConnectionOk = true →
      env.pfeOriginOk = true → env.pathExists = true →
      ∀ si, (syncFiles env pp t).info = some si →
        si.UploadedFileList.length = si.modifiedList.length ∧
        (SyncProject env pp t).2.completeRequests.length = 1 ∧
        ∃ resp warn, (SyncProject env pp t).1 = SyncOutcome.ok resp warn ∧
          resp.UploadedFiles = si.UploadedFileList) := by
  constructor
  · intro hfail
    unfold syncFile relPath
    rcases hfail with h | h | h
    · rw [h]; rfl
    · rw [h]
      by_cases hs : env.statOk path = true <;> simp [hs]
    · rw [h]
      by_cases hs : env.statOk path = true <;>
        by_cases hr : env.readOk path = true <;> simp [hs, hr]
  · intro h1 h2 h3 h4 si hsf
    refine ⟨syncFiles_lens env pp t si hsf, ?_⟩
    rcases hbl : env.beforeFileList with _ | bl
    · rw [SyncProject_eq_ok_none env pp t h1 h2 h3 h4 si hsf hbl]
      exact ⟨rfl, _, _, rfl, rfl⟩
    · rw [SyncProject_eq_ok_some env pp t h1 h2 h3 h4 si hsf bl hbl]
      exact ⟨rfl, _, _, rfl, rfl⟩

/-- Environment for the witness of claim C4: the transport rejects the
upload of the one modified file. -/
def envC4 : Env := { envW with
  upload := fun _ => none,
  fs := .dir (str "p") true [.file (str "c.txt") 500] }

/-- Witness for claim C4 at a concrete instance: the failed upload outcome
is recorded and the completion manifest is still sent exactly once. -/
theorem failed_upload_does_not_block_witness :
    syncFile envC4 (str "/p") (str "/p/c.txt") =
      ⟨str "c.txt", "Failed", 0⟩ ∧
    ((syncFiles envC4 (str "/p") 100).info =
      some ⟨[str "c.txt"], [], [str "c.txt"], [⟨str "c.txt", "Failed", 0⟩]⟩ ∧
     (SyncProject envC4 (str "/p") 100).2.completeRequests.length = 1) := by
  constructor
  · have := (failed_upload_does_not_block envC4 (str "/p") (str "/p/c.txt") 100).1
      (Or.inr (Or.inr rfl))
    simpa using this
  · refine ⟨by decide, ?_⟩
    exact ((failed_upload_does_not_block envC4 (str "/p") (str "/p/c.txt") 100).2
      rfl rfl rfl rfl ⟨[str "c.txt"], [], [str "c.txt"], [⟨str "c.txt", "Failed", 0⟩]⟩
      (by decide)).2.1

end Codewind

namespace Codewind

/-- First pass for the claim C9 counterexample: one file with modification
time 5, cutoff 0, remote knows nothing yet. -/
def envC9first : Env := { envW with
  beforeFileList := some [],
  fs := .dir (str "p") true [.file (str "a.txt") 5] }

/-- Second pass for the claim C9 counterexample: the same cutoff 0 and the
same unchanged tree, with the remote's prior list now being exactly the
file list reported by the first pass. -/
def envC9second : Env := { envC9first with beforeFileList := some [str "a.txt"] }

/-- Claim C9, counterexample: running the pass twice with the same cutoff 0
over an unchanged tree does not yield an empty modified list on the second
pass — the file with modification time 5 exceeds the unchanged cutoff again
and is re-listed as modified. -/
theorem second_pass_modified_not_empty :
    ((SyncProject envC9first (str "/p") 0).2.completeRequests.map
        (fun cr => cr.FileList) = [[str "a.txt"]]) ∧
    ¬ (∀ cr ∈ (SyncProject envC9second (str "/p") 0).2.completeRequests,
        cr.ModifiedList = []) := by
  decide

/-- Claim C9, amended: a second pass over an unchanged tree yields an empty
modified list in its completion manifest provided its cutoff is at least
every file's modification time — as holds when the cutoff is the first
pass's completion timestamp — and the remote's prior file list (the first
pass's reported file list) covers the computed file list. -/
theorem second_pass_empty_modified (env : Env) (pp : List Char) (t : Nat)
    (h1 : env.getConnectionIDOk = true) (h2 : env.getConnectionOk = true)
    (h3 : env.pfeOriginOk = true) (h4 : env.pathExists = true)
    (hfiles : FSNode.allFilesLE env.fs t = true)
    (hrefs : ∀ r ∈ env.refPathsList, ∀ i,
      env.refStat (resolveFrom pp r) = some i → i.mtimeMillis ≤ t)
    (si : SyncInfo) (hsf : (syncFiles env pp t).info = some si)
    (bl : List (List Char)) (hbl : env.beforeFileList = some bl)
    (hcov : ∀ f ∈ si.fileList, existsIn f bl = true) :
    ∀ cr ∈ (SyncProject env pp t).2.completeRequests, cr.ModifiedList = [] := by
  have hmod : si.modifiedList = [] := by
    unfold syncFiles at hsf
    by_cases hc : (primaryWalk env pp t).2 = WalkCtl.fail
    · rw [if_pos hc] at hsf
      cases hsf
    · rw [if_neg hc] at hsf
      have hW := goWalk_noMod env pp
        (cwCombinedIgnoredPathsList env.ignoredPathsList env.refPathsList) t
        pp env.fs SyncState.empty hfiles
      have hWmod : (primaryWalk env pp t).1.modifiedList = [] := hW.1
      have hWflag : (primaryWalk env pp t).1.refPathsChanged = false := hW.2.2
      have hR := refLoop_noMod env pp t env.refPathsList (primaryWalk env pp t).1
        "" [] hWflag hrefs
      cases hsf
      exact hR.trans hWmod
  have hfn := findNewFiles_nil_of_covered bl pp si.fileList hcov
  rw [SyncProject_eq_ok_some env pp t h1 h2 h3 h4 si hsf bl hbl]
  intro cr hcr
  have hcr2 : cr ∈ [(⟨si.fileList, si.directoryList,
      si.modifiedList ++ (findNewFiles bl pp si.fileList).1,
      env.currentSyncTimeMillis⟩ : CompleteRequest)] := hcr
  rw [List.mem_singleton] at hcr2
  rw [hcr2]
  show si.modifiedList ++ (findNewFiles bl pp si.fileList).1 = []
  rw [hmod, hfn]
  rfl

/-- Witness for amended claim C9 at a concrete instance: the second pass
runs with the first pass's completion timestamp 1000 as cutoff and the
first pass's file list as the remote's prior list, and reports no modified
files. -/
theorem second_pass_empty_modified_witness :
    FSNode.allFilesLE ({ envC9first with
        beforeFileList := some [str "a.txt"] } : Env).fs 1000 = true ∧
    (syncFiles { envC9first with beforeFileList := some [str "a.txt"] }
        (str "/p") 1000).info = some ⟨[str "a.txt"], [], [], []⟩ ∧
    ∀ cr ∈ (SyncProject { envC9first with beforeFileList := some [str "a.txt"] }
        (str "/p") 1000).2.completeRequests, cr.ModifiedList = [] := by
  refine ⟨by decide, by decide, ?_⟩
  exact second_pass_empty_modified
    { envC9first with beforeFileList := some [str "a.txt"] } (str "/p") 1000
    rfl rfl rfl rfl (by decide) (fun r hr => by cases hr)
    ⟨[str "a.txt"], [], [], []⟩ (by decide) [str "a.txt"] rfl (by decide)

/-- Claim C10: the upload outcomes of reconciliation-triggered uploads are
discarded — the response's uploaded-file list is exactly the walk phases'
outcome list, unchanged by reconciliation, even though reconciliation does
pass each new file to the per-file upload. -/
theorem reconciliation_outcomes_discarded (env : Env) (pp : List Char) (t : Nat)
    (h1 : env.getConnectionIDOk = true) (h2 : env.getConnectionOk = true)
    (h3 : env.pfeOriginOk = true) (h4 : env.pathExists = true)
    (si : SyncInfo) (hsf : (syncFiles env pp t).info = some si) :
    (∀ resp warn, (SyncProject env pp t).1 = SyncOutcome.ok resp warn →
      resp.UploadedFiles = si.UploadedFileList) ∧
    (∀ bl, env.beforeFileList = some bl →
      (SyncProject env pp t).2.reconcileUploads =
        (findNewFiles bl pp si.fileList).2) := by
  rcases hbl : env.beforeFileList with _ | bl
  · rw [SyncProject_eq_ok_none env pp t h1 h2 h3 h4 si hsf hbl]
    constructor
    · intro resp warn h
      injection h with hresp hwarn
      rw [← hresp]
    · intro bl hbl2
      cases hbl2
  · rw [SyncProject_eq_ok_some env pp t h1 h2 h3 h4 si hsf bl hbl]
    constructor
    · intro resp warn h
      injection h with hresp hwarn
      rw [← hresp]
    · intro bl2 hbl2
      injection hbl2 with hb
      rw [← hb]

/-- Witness for claim C10 at a concrete instance: the reconciliation upload
of the stale file is performed yet absent from the response's uploaded-file
list, which remains the (empty) walk-phase outcome list. -/
theorem reconciliation_outcomes_discarded_witness :
    (syncFiles envW (str "/p") 100).info = some ⟨[str "a.txt"], [], [], []⟩ ∧
    (SyncProject envW (str "/p") 100).1 =
      SyncOutcome.ok ⟨"200 OK", 200, []⟩ none ∧
    (∀ resp warn, (SyncProject envW (str "/p") 100).1 = SyncOutcome.ok resp warn →
      resp.UploadedFiles = []) ∧
    (SyncProject envW (str "/p") 100).2.reconcileUploads =
      (findNewFiles [] (str "/p") [str "a.txt"]).2 := by
  refine ⟨by decide, by decide, ?_, ?_⟩
  · exact (reconciliation_outcomes_discarded envW (str "/p") 100 rfl rfl rfl rfl
      ⟨[str "a.txt"], [], [], []⟩ (by decide)).1
  · exact (reconciliation_outcomes_discarded envW (str "/p") 100 rfl rfl rfl rfl
      ⟨[str "a.txt"], [], [], []⟩ (by decide)).2 [] rfl

end Codewind
